import Mathlib

/-!
# Verification of the railroad-syntax-diagram layout and path engine

This file gives a shallow embedding, in Lean 4, of the core of
`src/diagram.js` from the railroad-syntax-diagram.js repository:

* the `TrackBuilder` turtle-graphics path builder (cursor position,
  heading, quarter-circle arc transitions, and its sequencing errors), and
* the `Expression` layout algebra (`textBox`, `sequence`, `stack`,
  `bypass`, `loop`), both the width/height/baseline computation and the
  rail paths and child placements each combinator's `render` emits.

JavaScript numbers are modelled by `Int`: every arithmetic operation the
embedded code performs is integer-valued (the only divisions are exact
divisions of even numbers by 2).  `value % 2` is modelled by `Int.emod`,
which agrees with the JavaScript `%` on the non-negative values arising
here, and produces an even result in `roundUpToEven` for every input.
Fallible operations return `Except String _`, mirroring `throw new Error`.
-/

/-- Direction constants for track building (`Direction` in `diagram.js`). -/
inductive Direction where
  | north
  | south
  | east
  | west
deriving DecidableEq, Repr

/-- `roundUpToEven(value) = value + (value % 2)` from `diagram.js`. -/
def roundUpToEven (value : Int) : Int :=
  value + value % 2

/-- One SVG path command recorded by the `TrackBuilder`.  The source stores
the commands as strings in device units (grid units times `gridSize`); we
keep the numeric payload of each command.  `move` is the `M` command from
`start`, `line` the `L` command from `forward`, `arc` the quadratic `Q`
command (control point, end point) from `_addArcTransition`. -/
inductive PathCommand where
  | move (x y : Int)
  | line (x y : Int)
  | arc (x1 y1 x2 y2 : Int)
deriving DecidableEq, Repr

/-- The in-progress path of a `TrackBuilder` (`this.currentPath`); the
source also keeps a `debugSequence` of diagnostic strings, which carries no
geometric information and is not modelled. -/
structure CurrentPath where
  commands : List PathCommand
deriving DecidableEq, Repr

/-- The mutable state of a `TrackBuilder` instance.  The D3 `group` handle
is drawing-surface glue and is not modelled; finished paths accumulate in
`paths` exactly as the source pushes them. -/
structure TrackBuilder where
  gridSize : Int
  currentX : Int
  currentY : Int
  currentDirection : Direction
  currentPath : Option CurrentPath
  paths : List CurrentPath
deriving DecidableEq, Repr

namespace TrackBuilder

/-- The state the `TrackBuilder` constructor establishes:
`currentX = 0`, `currentY = 0`, heading `EAST`, no open path. -/
def init (gridSize : Int) : TrackBuilder :=
  { gridSize := gridSize
    currentX := 0
    currentY := 0
    currentDirection := Direction.east
    currentPath := none
    paths := [] }

/-- `_getDirectionDelta`: the unit step of each heading.  The source's
`default: throw` branch is unreachable here because `Direction` is a
closed enumeration. -/
def getDirectionDelta : Direction → Int × Int
  | Direction.north => (0, -1)
  | Direction.south => (0, 1)
  | Direction.east => (1, 0)
  | Direction.west => (-1, 0)

/-- `_turnLeft`: counterclockwise quarter rotation of a heading. -/
def turnLeftDir : Direction → Direction
  | Direction.north => Direction.west
  | Direction.west => Direction.south
  | Direction.south => Direction.east
  | Direction.east => Direction.north

/-- `_turnRight`: clockwise quarter rotation of a heading. -/
def turnRightDir : Direction → Direction
  | Direction.north => Direction.east
  | Direction.east => Direction.south
  | Direction.south => Direction.west
  | Direction.west => Direction.north

/-- Membership in the `ARC_TRANSITIONS` table: exactly the 8 keys
`east-north`, `east-south`, `west-north`, `west-south`, `north-east`,
`north-west`, `south-east`, `south-west` have an arc template. -/
def arcDefined : Direction → Direction → Bool
  | Direction.east, Direction.north => true
  | Direction.east, Direction.south => true
  | Direction.west, Direction.north => true
  | Direction.west, Direction.south => true
  | Direction.north, Direction.east => true
  | Direction.north, Direction.west => true
  | Direction.south, Direction.east => true
  | Direction.south, Direction.west => true
  | _, _ => false

/-- `start(x, y, direction)`: begins a path; throws if one is open. -/
def start (b : TrackBuilder) (x y : Int) (direction : Direction) :
    Except String TrackBuilder :=
  match b.currentPath with
  | some _ =>
      Except.error "Path already started. Call finish() before starting a new path."
  | none =>
      Except.ok
        { b with
          currentX := x
          currentY := y
          currentDirection := direction
          currentPath := some ⟨[PathCommand.move (x * b.gridSize) (y * b.gridSize)]⟩ }

/-- `forward(units)`: advances the cursor `units` grid units in the current
heading and appends an `L` command; throws if no path is open. -/
def forward (b : TrackBuilder) (units : Int) : Except String TrackBuilder :=
  match b.currentPath with
  | none => Except.error "No path started. Call start() first."
  | some p =>
      let deltaX := (getDirectionDelta b.currentDirection).1 * units
      let deltaY := (getDirectionDelta b.currentDirection).2 * units
      let newX := b.currentX + deltaX
      let newY := b.currentY + deltaY
      Except.ok
        { b with
          currentX := newX
          currentY := newY
          currentPath :=
            some ⟨p.commands ++ [PathCommand.line (newX * b.gridSize) (newY * b.gridSize)]⟩ }

/-- `_addArcTransition(fromDirection, toDirection)` applied to the open
path `p`: throws if the heading pair has no entry in `ARC_TRANSITIONS`;
otherwise advances the cursor one unit in the old heading (control point)
and then one unit in the new heading (end point) and appends the `Q`
command. -/
def addArcTransition (b : TrackBuilder) (p : CurrentPath)
    (fromDirection toDirection : Direction) : Except String TrackBuilder :=
  if arcDefined fromDirection toDirection then
    let fromDelta := getDirectionDelta fromDirection
    let toDelta := getDirectionDelta toDirection
    let midX := b.currentX + fromDelta.1
    let midY := b.currentY + fromDelta.2
    let endX := midX + toDelta.1
    let endY := midY + toDelta.2
    Except.ok
      { b with
        currentX := endX
        currentY := endY
        currentPath :=
          some ⟨p.commands ++
            [PathCommand.arc (midX * b.gridSize) (midY * b.gridSize)
              (endX * b.gridSize) (endY * b.gridSize)]⟩ }
  else
    Except.error "No arc transition defined for this heading pair"

/-- `turnLeft()`: throws if no path is open; otherwise emits the arc
transition to the counterclockwise heading and updates the heading. -/
def turnLeft (b : TrackBuilder) : Except String TrackBuilder :=
  match b.currentPath with
  | none => Except.error "No path started. Call start() first."
  | some p =>
      let newDirection := turnLeftDir b.currentDirection
      match addArcTransition b p b.currentDirection newDirection with
      | Except.error e => Except.error e
      | Except.ok b2 => Except.ok { b2 with currentDirection := newDirection }

/-- `turnRight()`: throws if no path is open; otherwise emits the arc
transition to the clockwise heading and updates the heading. -/
def turnRight (b : TrackBuilder) : Except String TrackBuilder :=
  match b.currentPath with
  | none => Except.error "No path started. Call start() first."
  | some p =>
      let newDirection := turnRightDir b.currentDirection
      match addArcTransition b p b.currentDirection newDirection with
      | Except.error e => Except.error e
      | Except.ok b2 => Except.ok { b2 with currentDirection := newDirection }

/-- `finish(debugId)`: throws if no path is open; otherwise moves the open
path onto the list of finished paths.  The optional `debugId` only sets an
SVG attribute and is not modelled. -/
def finish (b : TrackBuilder) : Except String TrackBuilder :=
  match b.currentPath with
  | none => Except.error "No path to finish. Call start() first."
  | some p =>
      Except.ok { b with currentPath := none, paths := b.paths ++ [p] }

end TrackBuilder

/-- One `TrackBuilder` method invocation, for reasoning about call
sequences made by the layout combinators. -/
inductive Op where
  | start (x y : Int) (direction : Direction)
  | forward (units : Int)
  | turnLeft
  | turnRight
  | finish
deriving DecidableEq, Repr

/-- Execute a single `TrackBuilder` method call. -/
def stepOp (b : TrackBuilder) : Op → Except String TrackBuilder
  | Op.start x y d => b.start x y d
  | Op.forward units => b.forward units
  | Op.turnLeft => b.turnLeft
  | Op.turnRight => b.turnRight
  | Op.finish => b.finish

/-- Execute a sequence of `TrackBuilder` method calls, stopping at the
first thrown error (the source's exceptions abort the render). -/
def runOps (b : TrackBuilder) : List Op → Except String TrackBuilder
  | [] => Except.ok b
  | op :: ops =>
      match stepOp b op with
      | Except.error e => Except.error e
      | Except.ok b2 => runOps b2 ops

/-- The width/height/baseline triple of a layout node (`LayoutBox` in the
source's JSDoc).  The attached `render` closure is modelled separately as
an event trace, see `REvent`. -/
structure LayoutBox where
  width : Int
  height : Int
  baseline : Int
deriving DecidableEq, Repr

/-- `Math.max` spread over a list of integers.  JavaScript returns
`-Infinity` on an empty list, which has no `Int` counterpart; every use in
the source feeds it at least one element, matching the combinators'
documented arity (≥ 1 child). -/
def mathMax : List Int → Int
  | [] => 0
  | x :: xs => xs.foldl max x

/-- One observable action of a combinator's `render(renderContext)`
closure, in emission order: `placeChild child x y` is
`renderContext.renderChild(child, x, y)` (the child is rendered in a frame
translated by `(x, y)` grid units), and `rail ops` is one complete
`trackBuilder.start(...)....finish(...)` chain (the `finish` debug ids are
diagnostic strings only and are not modelled).  Rect/text drawing calls go
to the drawing surface, not the track builder, and are outside the rail
geometry the claims concern. -/
inductive REvent where
  | placeChild (child : LayoutBox) (x y : Int)
  | rail (ops : List Op)
deriving DecidableEq, Repr

namespace Expression

/-- `Expression.textBox`: the measured text extent (an external
collaborator, `Expression._measureText`) is abstracted as the input
`textWidth`; the box adds 3 grid units and rounds up to even. -/
def textBox (textWidth : Int) : LayoutBox :=
  { width := roundUpToEven (textWidth + 3)
    height := 2
    baseline := 1 }

/-- The rail chains emitted by `renderContext.renderTextBox` for a text
box of (already adjusted) width `adjustedWidth`: a 1-unit stub at each
horizontal edge on the baseline `y = 1`. -/
def textBoxRender (adjustedWidth : Int) : List REvent :=
  [REvent.rail [Op.start 0 1 Direction.east, Op.forward 1, Op.finish],
   REvent.rail [Op.start (adjustedWidth - 1) 1 Direction.east, Op.forward 1, Op.finish]]

/-- `Expression.sequence` layout: total width is the sum of child widths
plus `(n − 1) · 2`, height and baseline are the childwise maxima. -/
def sequence (children : List LayoutBox) : LayoutBox :=
  { width :=
      children.foldl (fun sum child => sum + child.width) 0 +
        ((children.length : Int) - 1) * 2
    height := mathMax (children.map (fun child => child.height))
    baseline := mathMax (children.map (fun child => child.baseline)) }

/-- The `children.forEach` loop of `Expression.sequence`'s render closure:
place each child at the running `currentX`, shifted down by
`baseline - child.baseline`, and after every child but the last draw a
2-unit connecting rail at `y = baseline`. -/
def sequenceRenderGo (baseline : Int) : List LayoutBox → Int → List REvent
  | [], _ => []
  | child :: rest, currentX =>
      (REvent.placeChild child currentX (baseline - child.baseline) ::
        (if rest.isEmpty then [] else
          [REvent.rail [Op.start (currentX + child.width) baseline Direction.east,
                        Op.forward 2, Op.finish]])) ++
      sequenceRenderGo baseline rest (currentX + child.width + 2)

/-- The event trace of `Expression.sequence(...children).render`. -/
def sequenceRender (children : List LayoutBox) : List REvent :=
  sequenceRenderGo (sequence children).baseline children 0

/-- `Expression.stack` layout: width is the even-rounded maximal child
width plus 4 (2 units of routing margin per side), height is the sum of
child heights plus `(n − 1) + 1`, baseline is the first child's. -/
def stack (children : List LayoutBox) : LayoutBox :=
  { width := roundUpToEven (mathMax (children.map (fun child => child.width))) + 4
    height :=
      children.foldl (fun sum child => sum + child.height) 0 +
        ((children.length : Int) - 1) + 1
    baseline := (children.headD ⟨0, 0, 0⟩).baseline }

/-- The `index > 0` arm of `Expression.stack`'s render loop: each
subsequent child is centered at `xOffset`, placed at the running
`currentY`, and connected by a two-turn left rail (from the stack's left
entry point) and a mirrored two-turn right rail (from its right entry
point). -/
def stackRenderGo (maxChildWidth maxWidth mainBaseline : Int) :
    List LayoutBox → Int → List REvent
  | [], _ => []
  | child :: rest, currentY =>
      let xOffset := 2 + (maxChildWidth - child.width) / 2
      let childBaseline := currentY + child.baseline
      let childLeftX := xOffset
      let childRightX := xOffset + child.width
      let verticalDistance := childBaseline - mainBaseline
      let horizontalToChild := childLeftX - 0
      let horizontalFromChild := maxWidth - childRightX
      [REvent.placeChild child xOffset currentY,
       REvent.rail [Op.start 0 mainBaseline Direction.east, Op.turnRight,
                    Op.forward (verticalDistance - 2), Op.turnLeft,
                    Op.forward (horizontalToChild - 2), Op.finish],
       REvent.rail [Op.start maxWidth mainBaseline Direction.west, Op.turnLeft,
                    Op.forward (verticalDistance - 2), Op.turnRight,
                    Op.forward (horizontalFromChild - 2), Op.finish]] ++
      stackRenderGo maxChildWidth maxWidth mainBaseline rest (currentY + child.height + 1)

/-- The event trace of `Expression.stack(...children).render`: the first
child (`index === 0`) sits on the main baseline and is connected by two
straight rails; the rest are handled by `stackRenderGo`. -/
def stackRender (children : List LayoutBox) : List REvent :=
  let maxChildWidth := roundUpToEven (mathMax (children.map (fun child => child.width)))
  let maxWidth := maxChildWidth + 4
  let mainBaseline := (stack children).baseline
  match children with
  | [] => []
  | child :: rest =>
      let xOffset := 2 + (maxChildWidth - child.width) / 2
      let childRightX := xOffset + child.width
      [REvent.placeChild child xOffset 0,
       REvent.rail [Op.start 0 mainBaseline Direction.east,
                    Op.forward (xOffset - 0), Op.finish],
       REvent.rail [Op.start childRightX (0 + child.baseline) Direction.east,
                    Op.forward (maxWidth - childRightX), Op.finish]] ++
      stackRenderGo maxChildWidth maxWidth mainBaseline rest (child.height + 1)

/-- `Expression.bypass` layout. -/
def bypass (child : LayoutBox) : LayoutBox :=
  { width := roundUpToEven (child.width + 4)
    height := child.height + 1
    baseline := child.baseline + 1 }

/-- The rail chain of the bypass path drawn by `Expression.bypass`'s
render closure, as a function of the computed `width` and `baseline`. -/
def bypassRailOps (width baseline : Int) : List Op :=
  [Op.start 0 baseline Direction.east, Op.turnLeft, Op.forward (baseline - 2),
   Op.turnRight, Op.forward (width - 4), Op.turnRight,
   Op.forward (baseline - 2), Op.turnLeft, Op.finish]

/-- The event trace of `Expression.bypass(child).render`: the child is
centered at `(width - child.width) / 2` and pushed down 1 unit; the bypass
rail runs above it; two 2-unit through-path stubs join the entry and exit
points. -/
def bypassRender (child : LayoutBox) : List REvent :=
  let width := (bypass child).width
  let baseline := (bypass child).baseline
  let childX := (width - child.width) / 2
  [REvent.placeChild child childX 1,
   REvent.rail (bypassRailOps width baseline),
   REvent.rail [Op.start 0 baseline Direction.east, Op.forward 2, Op.finish],
   REvent.rail [Op.start width baseline Direction.west, Op.forward 2, Op.finish]]

/-- `Expression.loop` layout (same formulas as `bypass`). -/
def loop (child : LayoutBox) : LayoutBox :=
  { width := roundUpToEven (child.width + 4)
    height := child.height + 1
    baseline := child.baseline + 1 }

/-- The rail chain of the loop path drawn by `Expression.loop`'s render
closure: it starts at `(2, baseline)` heading `WEST` and takes four
`turnRight`s. -/
def loopRailOps (width baseline : Int) : List Op :=
  [Op.start 2 baseline Direction.west, Op.turnRight, Op.forward (baseline - 2),
   Op.turnRight, Op.forward (width - 4), Op.turnRight,
   Op.forward (baseline - 2), Op.turnRight, Op.finish]

/-- The event trace of `Expression.loop(child).render`. -/
def loopRender (child : LayoutBox) : List REvent :=
  let width := (loop child).width
  let baseline := (loop child).baseline
  let childX := (width - child.width) / 2
  [REvent.placeChild child childX 1,
   REvent.rail (loopRailOps width baseline),
   REvent.rail [Op.start 0 baseline Direction.east, Op.forward 2, Op.finish],
   REvent.rail [Op.start width baseline Direction.west, Op.forward 2, Op.finish]]

end Expression

/-- Grammar-expression trees over the five combinators.  `sequence` and
`stack` carry a first child and a list of further children, encoding the
documented arity of at least one child; `textBox` carries the externally
measured text extent in grid units (a non-negative integer). -/
inductive Expr where
  | textBox (textWidth : Nat)
  | sequence (first : Expr) (rest : List Expr)
  | stack (first : Expr) (rest : List Expr)
  | bypass (child : Expr)
  | loop (child : Expr)
deriving Repr

mutual

/-- The `LayoutBox` the algebra computes for an expression tree. -/
def layout : Expr → LayoutBox
  | Expr.textBox w => Expression.textBox (w : Int)
  | Expr.sequence c cs => Expression.sequence (layout c :: layoutList cs)
  | Expr.stack c cs => Expression.stack (layout c :: layoutList cs)
  | Expr.bypass c => Expression.bypass (layout c)
  | Expr.loop c => Expression.loop (layout c)

/-- Childwise `layout`. -/
def layoutList : List Expr → List LayoutBox
  | [] => []
  | e :: es => layout e :: layoutList es

end

/-- The render-event trace the root node of an expression tree emits (its
children's own traces are obtained recursively via their `layout`). -/
def renderEvents : Expr → List REvent
  | Expr.textBox w => Expression.textBoxRender (Expression.textBox (w : Int)).width
  | Expr.sequence c cs => Expression.sequenceRender (layout c :: layoutList cs)
  | Expr.stack c cs => Expression.stackRender (layout c :: layoutList cs)
  | Expr.bypass c => Expression.bypassRender (layout c)
  | Expr.loop c => Expression.loopRender (layout c)

/-! ## Observation helpers -/

/-- Whether a `TrackBuilder` call returned normally (`Except.ok`). -/
def exceptOk : Except String TrackBuilder → Bool
  | Except.ok _ => true
  | Except.error _ => false

/-- The cursor position after a successful run of builder calls. -/
def finalPosition : Except String TrackBuilder → Option (Int × Int)
  | Except.ok b => some (b.currentX, b.currentY)
  | Except.error _ => none

/-- All path commands of the finished paths of a successful run. -/
def finishedCommands : Except String TrackBuilder → List PathCommand
  | Except.ok b => (b.paths.map (fun p => p.commands)).flatten
  | Except.error _ => []

/-- Recognize straight-segment (`L`) commands. -/
def isLine : PathCommand → Bool
  | PathCommand.line _ _ => true
  | _ => false

/-- Recognize quarter-turn calls. -/
def isTurn : Op → Bool
  | Op.turnLeft => true
  | Op.turnRight => true
  | _ => false

/-- The distances passed to `forward` in a call chain. -/
def forwardArgs (ops : List Op) : List Int :=
  ops.filterMap (fun op =>
    match op with
    | Op.forward units => some units
    | _ => none)

/-- The distances passed to `forward` across all rail chains of an event
trace. -/
def railForwardArgs (events : List REvent) : List Int :=
  (events.map (fun ev =>
    match ev with
    | REvent.rail ops => forwardArgs ops
    | REvent.placeChild _ _ _ => [])).flatten

/-- The child placements (`renderChild` calls) of an event trace, in
order: child box, x offset, y offset. -/
def placements : List REvent → List (LayoutBox × Int × Int)
  | [] => []
  | REvent.placeChild c x y :: rest => (c, x, y) :: placements rest
  | REvent.rail _ :: rest => placements rest

/-! ## Arithmetic and list helper lemmas -/

theorem roundUpToEven_emod (v : Int) : roundUpToEven v % 2 = 0 := by
  unfold roundUpToEven
  omega

theorem le_roundUpToEven (v : Int) : v ≤ roundUpToEven v := by
  unfold roundUpToEven
  omega

theorem roundUpToEven_le (v : Int) : roundUpToEven v ≤ v + 1 := by
  unfold roundUpToEven
  omega

theorem mathMax_mem : ∀ (x : Int) (xs : List Int), mathMax (x :: xs) ∈ x :: xs := by
  intro x xs
  induction xs generalizing x with
  | nil => simp [mathMax]
  | cons y ys ih =>
      have h := ih (max x y)
      have hstep : mathMax (x :: y :: ys) = mathMax (max x y :: ys) := by
        simp [mathMax]
      rw [hstep]
      rcases List.mem_cons.mp h with h1 | h1
      · rw [h1]
        rcases le_total x y with hxy | hxy
        · rw [max_eq_right hxy]
          exact List.mem_cons_of_mem _ (List.mem_cons_self _ _)
        · rw [max_eq_left hxy]
          exact List.mem_cons_self _ _
      · exact List.mem_cons_of_mem _ (List.mem_cons_of_mem _ h1)

theorem le_mathMax : ∀ (x : Int) (xs : List Int), ∀ a ∈ x :: xs, a ≤ mathMax (x :: xs) := by
  intro x xs
  induction xs generalizing x with
  | nil =>
      intro a ha
      simp at ha
      simp [mathMax, ha]
  | cons y ys ih =>
      intro a ha
      have hstep : mathMax (x :: y :: ys) = mathMax (max x y :: ys) := by
        simp [mathMax]
      rw [hstep]
      rcases List.mem_cons.mp ha with h1 | h1
      · calc a = x := h1
          _ ≤ max x y := le_max_left x y
          _ ≤ mathMax (max x y :: ys) := ih (max x y) (max x y) (List.mem_cons_self _ _)
      · rcases List.mem_cons.mp h1 with h2 | h2
        · calc a = y := h2
            _ ≤ max x y := le_max_right x y
            _ ≤ mathMax (max x y :: ys) := ih (max x y) (max x y) (List.mem_cons_self _ _)
        · exact ih (max x y) a (List.mem_cons_of_mem _ h2)

theorem foldl_add_width (l : List LayoutBox) (a : Int) :
    l.foldl (fun sum child => sum + child.width) a = a + (l.map (fun c => c.width)).sum := by
  induction l generalizing a with
  | nil => simp
  | cons c cs ih => simp [ih, add_assoc]

theorem foldl_add_height (l : List LayoutBox) (a : Int) :
    l.foldl (fun sum child => sum + child.height) a = a + (l.map (fun c => c.height)).sum := by
  induction l generalizing a with
  | nil => simp
  | cons c cs ih => simp [ih, add_assoc]

theorem placements_append (a b : List REvent) :
    placements (a ++ b) = placements a ++ placements b := by
  induction a with
  | nil => simp [placements]
  | cons ev rest ih =>
      cases ev with
      | placeChild c x y => simp [placements, ih]
      | rail ops => simp [placements, ih]

theorem layoutList_eq_map (l : List Expr) : layoutList l = l.map layout := by
  induction l with
  | nil => simp [layoutList]
  | cons e es ih => simp [layoutList, ih]

/-! ## The combinator invariants

`GoodBox` collects the structural facts every combinator-built node
satisfies: even width, non-negative width, and a baseline strictly inside
the box (`1 ≤ baseline ≤ height - 1`). -/

def GoodBox (box : LayoutBox) : Prop :=
  box.width % 2 = 0 ∧ 0 ≤ box.width ∧ 1 ≤ box.baseline ∧ box.baseline + 1 ≤ box.height

theorem sum_width_emod (l : List LayoutBox) (h : ∀ box ∈ l, box.width % 2 = 0) :
    (l.map (fun c => c.width)).sum % 2 = 0 := by
  induction l with
  | nil => simp
  | cons c cs ih =>
      have hc := h c (List.mem_cons_self _ _)
      have hcs := ih (fun box hb => h box (List.mem_cons_of_mem _ hb))
      simp only [List.map_cons, List.sum_cons]
      omega

theorem sum_width_nonneg (l : List LayoutBox) (h : ∀ box ∈ l, 0 ≤ box.width) :
    0 ≤ (l.map (fun c => c.width)).sum := by
  induction l with
  | nil => simp
  | cons c cs ih =>
      have hc := h c (List.mem_cons_self _ _)
      have hcs := ih (fun box hb => h box (List.mem_cons_of_mem _ hb))
      simp only [List.map_cons, List.sum_cons]
      omega

theorem sum_height_nonneg (l : List LayoutBox) (h : ∀ box ∈ l, 0 ≤ box.height) :
    0 ≤ (l.map (fun c => c.height)).sum := by
  induction l with
  | nil => simp
  | cons c cs ih =>
      have hc := h c (List.mem_cons_self _ _)
      have hcs := ih (fun box hb => h box (List.mem_cons_of_mem _ hb))
      simp only [List.map_cons, List.sum_cons]
      omega

theorem textBox_goodBox (w : Int) (hw : 0 ≤ w) : GoodBox (Expression.textBox w) := by
  refine ⟨roundUpToEven_emod _, ?_, ?_, ?_⟩
  · have := le_roundUpToEven (w + 3)
    simp only [Expression.textBox]
    omega
  · simp [Expression.textBox]
  · simp [Expression.textBox]

theorem sequence_goodBox (c : LayoutBox) (cs : List LayoutBox)
    (h : ∀ box ∈ c :: cs, GoodBox box) : GoodBox (Expression.sequence (c :: cs)) := by
  have hwidth : (Expression.sequence (c :: cs)).width =
      ((c :: cs).map (fun b => b.width)).sum + (((c :: cs).length : Int) - 1) * 2 := by
    simp [Expression.sequence, foldl_add_width]
  refine ⟨?_, ?_, ?_, ?_⟩
  · rw [hwidth]
    have h1 := sum_width_emod (c :: cs) (fun box hb => (h box hb).1)
    omega
  · rw [hwidth]
    have h1 := sum_width_nonneg (c :: cs) (fun box hb => (h box hb).2.1)
    have h2 : (1 : Int) ≤ ((c :: cs).length : Int) := by
      simp only [List.length_cons]
      push_cast
      omega
    omega
  · have hb : (Expression.sequence (c :: cs)).baseline =
        mathMax (c.baseline :: cs.map (fun b => b.baseline)) := by
      simp [Expression.sequence]
    rw [hb]
    have := le_mathMax c.baseline (cs.map (fun b => b.baseline)) c.baseline
      (List.mem_cons_self _ _)
    have h1 := (h c (List.mem_cons_self _ _)).2.2.1
    omega
  · -- the maximal baseline is attained by some child, whose height bounds it
    have hb : (Expression.sequence (c :: cs)).baseline =
        mathMax (c.baseline :: cs.map (fun b => b.baseline)) := by
      simp [Expression.sequence]
    have hh : (Expression.sequence (c :: cs)).height =
        mathMax (c.height :: cs.map (fun b => b.height)) := by
      simp [Expression.sequence]
    rw [hb, hh]
    have hmem := mathMax_mem c.baseline (cs.map (fun b => b.baseline))
    have : ∃ box ∈ c :: cs, box.baseline = mathMax (c.baseline :: cs.map (fun b => b.baseline)) := by
      rcases List.mem_cons.mp hmem with h1 | h1
      · exact ⟨c, List.mem_cons_self _ _, h1.symm⟩
      · rcases List.mem_map.mp h1 with ⟨box, hbox, hval⟩
        exact ⟨box, List.mem_cons_of_mem _ hbox, hval⟩
    rcases this with ⟨box, hboxmem, hval⟩
    have hgood := (h box hboxmem).2.2.2
    have hle : box.height ≤ mathMax (c.height :: cs.map (fun b => b.height)) := by
      apply le_mathMax
      rcases List.mem_cons.mp hboxmem with h1 | h1
      · rw [h1]
        exact List.mem_cons_self _ _
      · exact List.mem_cons_of_mem _ (List.mem_map.mpr ⟨box, h1, rfl⟩)
    omega

theorem stack_goodBox (c : LayoutBox) (cs : List LayoutBox)
    (h : ∀ box ∈ c :: cs, GoodBox box) : GoodBox (Expression.stack (c :: cs)) := by
  have hc := h c (List.mem_cons_self _ _)
  have hwidth : (Expression.stack (c :: cs)).width =
      roundUpToEven (mathMax (c.width :: cs.map (fun b => b.width))) + 4 := by
    simp [Expression.stack]
  have hheight : (Expression.stack (c :: cs)).height =
      ((c :: cs).map (fun b => b.height)).sum + (((c :: cs).length : Int) - 1) + 1 := by
    simp [Expression.stack, foldl_add_height]
  have hbaseline : (Expression.stack (c :: cs)).baseline = c.baseline := by
    simp [Expression.stack]
  refine ⟨?_, ?_, ?_, ?_⟩
  · rw [hwidth]
    have := roundUpToEven_emod (mathMax (c.width :: cs.map (fun b => b.width)))
    omega
  · rw [hwidth]
    have h1 := le_mathMax c.width (cs.map (fun b => b.width)) c.width (List.mem_cons_self _ _)
    have h2 := le_roundUpToEven (mathMax (c.width :: cs.map (fun b => b.width)))
    have h3 := hc.2.1
    omega
  · rw [hbaseline]
    exact hc.2.2.1
  · rw [hbaseline, hheight]
    have hsum : ((c :: cs).map (fun b => b.height)).sum =
        c.height + (cs.map (fun b => b.height)).sum := by
      simp
    have h1 := sum_height_nonneg cs (fun box hb => by
      have := (h box (List.mem_cons_of_mem _ hb)).2.2
      omega)
    have h2 := hc.2.2.2
    have h3 : (0 : Int) ≤ (cs.length : Int) := by positivity
    simp only [List.length_cons]
    push_cast
    omega

theorem bypass_goodBox (c : LayoutBox) (h : GoodBox c) : GoodBox (Expression.bypass c) := by
  refine ⟨roundUpToEven_emod _, ?_, ?_, ?_⟩
  · have := le_roundUpToEven (c.width + 4)
    have := h.2.1
    simp only [Expression.bypass]
    omega
  · have := h.2.2.1
    simp only [Expression.bypass]
    omega
  · have := h.2.2.2
    simp only [Expression.bypass]
    omega

theorem loop_goodBox (c : LayoutBox) (h : GoodBox c) : GoodBox (Expression.loop c) := by
  refine ⟨roundUpToEven_emod _, ?_, ?_, ?_⟩
  · have := le_roundUpToEven (c.width + 4)
    have := h.2.1
    simp only [Expression.loop]
    omega
  · have := h.2.2.1
    simp only [Expression.loop]
    omega
  · have := h.2.2.2
    simp only [Expression.loop]
    omega

mutual

theorem layout_goodBox : ∀ e : Expr, GoodBox (layout e)
  | Expr.textBox w => by
      have := textBox_goodBox (w : Int) (Int.ofNat_nonneg w)
      simpa [layout] using this
  | Expr.sequence c cs => by
      have hall : ∀ box ∈ layout c :: layoutList cs, GoodBox box := by
        intro box hb
        rcases List.mem_cons.mp hb with h1 | h1
        · rw [h1]
          exact layout_goodBox c
        · exact layoutList_goodBox cs box h1
      simpa [layout] using sequence_goodBox (layout c) (layoutList cs) hall
  | Expr.stack c cs => by
      have hall : ∀ box ∈ layout c :: layoutList cs, GoodBox box := by
        intro box hb
        rcases List.mem_cons.mp hb with h1 | h1
        · rw [h1]
          exact layout_goodBox c
        · exact layoutList_goodBox cs box h1
      simpa [layout] using stack_goodBox (layout c) (layoutList cs) hall
  | Expr.bypass c => by
      simpa [layout] using bypass_goodBox (layout c) (layout_goodBox c)
  | Expr.loop c => by
      simpa [layout] using loop_goodBox (layout c) (layout_goodBox c)

theorem layoutList_goodBox : ∀ l : List Expr, ∀ box ∈ layoutList l, GoodBox box
  | [] => by simp [layoutList]
  | e :: es => by
      intro box hb
      rw [layoutList] at hb
      rcases List.mem_cons.mp hb with h1 | h1
      · rw [h1]
        exact layout_goodBox e
      · exact layoutList_goodBox es box h1

end

/-! ## Rail run lengths emitted by the renders -/

theorem railForwardArgs_append (a b : List REvent) :
    railForwardArgs (a ++ b) = railForwardArgs a ++ railForwardArgs b := by
  simp [railForwardArgs]

theorem sequenceRenderGo_runs (baseline : Int) :
    ∀ (l : List LayoutBox) (x : Int),
      ∀ a ∈ railForwardArgs (Expression.sequenceRenderGo baseline l x), a = 2 := by
  intro l
  induction l with
  | nil =>
      intro x a ha
      simp [Expression.sequenceRenderGo, railForwardArgs] at ha
  | cons c cs ih =>
      intro x a ha
      rw [Expression.sequenceRenderGo, railForwardArgs_append] at ha
      rcases List.mem_append.mp ha with h1 | h1
      · by_cases hcs : cs.isEmpty
        · simp [hcs, railForwardArgs, forwardArgs] at h1
        · simp [hcs, railForwardArgs, forwardArgs] at h1
          exact h1
      · exact ih _ a h1

theorem stackRenderGo_runs (M maxWidth mainBaseline : Int) (hmw : maxWidth = M + 4) :
    ∀ (l : List LayoutBox) (currentY : Int),
      (∀ box ∈ l, box.width ≤ M ∧ GoodBox box) →
      mainBaseline + 2 ≤ currentY →
      ∀ a ∈ railForwardArgs (Expression.stackRenderGo M maxWidth mainBaseline l currentY),
        0 ≤ a := by
  intro l
  induction l with
  | nil =>
      intro currentY _ _ a ha
      simp [Expression.stackRenderGo, railForwardArgs] at ha
  | cons c cs ih =>
      intro currentY hall hY a ha
      rw [Expression.stackRenderGo, railForwardArgs_append] at ha
      rcases List.mem_append.mp ha with h1 | h1
      · have hc := hall c (List.mem_cons_self _ _)
        have hw := hc.1
        have hb := hc.2.2.2.1
        simp [railForwardArgs, forwardArgs] at h1
        subst hmw
        omega
      · have hc := hall c (List.mem_cons_self _ _)
        have hh := hc.2.2.2.2
        have hb := hc.2.2.2.1
        exact ih (currentY + c.height + 1)
          (fun box hbm => hall box (List.mem_cons_of_mem _ hbm))
          (by omega) a h1

theorem width_le_evenMax (c : LayoutBox) (cs : List LayoutBox) :
    ∀ box ∈ c :: cs,
      box.width ≤ roundUpToEven (mathMax ((c :: cs).map (fun b => b.width))) := by
  intro box hb
  have h1 : box.width ∈ (c :: cs).map (fun b => b.width) := List.mem_map.mpr ⟨box, hb, rfl⟩
  have h2 : (c :: cs).map (fun b => b.width) = c.width :: cs.map (fun b => b.width) := by simp
  rw [h2] at h1
  have h3 := le_mathMax c.width (cs.map (fun b => b.width)) box.width h1
  have h4 := le_roundUpToEven (mathMax (c.width :: cs.map (fun b => b.width)))
  rw [h2]
  omega

theorem renderEvents_runs_nonneg : ∀ e : Expr, ∀ a ∈ railForwardArgs (renderEvents e), 0 ≤ a := by
  intro e
  cases e with
  | textBox w =>
      intro a ha
      simp [renderEvents, Expression.textBoxRender, railForwardArgs, forwardArgs] at ha
      omega
  | sequence c cs =>
      intro a ha
      rw [renderEvents, Expression.sequenceRender] at ha
      have := sequenceRenderGo_runs
        (Expression.sequence (layout c :: layoutList cs)).baseline
        (layout c :: layoutList cs) 0 a ha
      omega
  | stack c cs =>
      intro a ha
      have hgoodc : GoodBox (layout c) := layout_goodBox c
      have hgoodlist : ∀ box ∈ layoutList cs, GoodBox box := layoutList_goodBox cs
      have hall : ∀ box ∈ layout c :: layoutList cs, GoodBox box := by
        intro box hb
        rcases List.mem_cons.mp hb with h1 | h1
        · rw [h1]; exact hgoodc
        · exact hgoodlist box h1
      rw [renderEvents, Expression.stackRender] at ha
      simp only [List.map_cons] at ha
      rw [railForwardArgs_append] at ha
      rcases List.mem_append.mp ha with h1 | h1
      · -- the first child's two straight rails
        have hw := width_le_evenMax (layout c) (layoutList cs) (layout c)
          (List.mem_cons_self _ _)
        simp only [List.map_cons] at hw
        simp [railForwardArgs, forwardArgs] at h1
        omega
      · -- the subsequent children's two-turn rails
        have hM : ∀ box ∈ layoutList cs,
            box.width ≤ roundUpToEven (mathMax ((layout c).width :: (layoutList cs).map (fun b => b.width))) ∧
              GoodBox box := by
          intro box hb
          refine ⟨?_, hgoodlist box hb⟩
          have := width_le_evenMax (layout c) (layoutList cs) box (List.mem_cons_of_mem _ hb)
          simpa using this
        have hbase : (Expression.stack (layout c :: layoutList cs)).baseline = (layout c).baseline := by
          simp [Expression.stack]
        rw [hbase] at h1
        exact stackRenderGo_runs _ _ _ rfl (layoutList cs) ((layout c).height + 1) hM
          (by have := hgoodc.2.2.2; omega) a h1
  | bypass c =>
      intro a ha
      have hgood : GoodBox (layout c) := layout_goodBox c
      have h1 := hgood.2.1
      have h2 := hgood.2.2.1
      have h3 := le_roundUpToEven ((layout c).width + 4)
      rw [renderEvents] at ha
      simp [Expression.bypassRender, Expression.bypassRailOps, Expression.bypass,
        railForwardArgs, forwardArgs] at ha
      omega
  | loop c =>
      intro a ha
      have hgood : GoodBox (layout c) := layout_goodBox c
      have h1 := hgood.2.1
      have h2 := hgood.2.2.1
      have h3 := le_roundUpToEven ((layout c).width + 4)
      rw [renderEvents] at ha
      simp [Expression.loopRender, Expression.loopRailOps, Expression.loop,
        railForwardArgs, forwardArgs] at ha
      omega

/-! ## Claim theorems: the track builder -/

/-- A quarter turn, abstracting over `turnLeft`/`turnRight`. -/
inductive Turn where
  | left
  | right
deriving DecidableEq, Repr

/-- The builder call performing a given quarter turn. -/
def turnOp : Turn → Op
  | Turn.left => Op.turnLeft
  | Turn.right => Op.turnRight

/-- The opposite sense of rotation. -/
def oppositeTurn : Turn → Turn
  | Turn.left => Turn.right
  | Turn.right => Turn.left

/-- The heading a quarter turn produces. -/
def turnDir : Turn → Direction → Direction
  | Turn.left => TrackBuilder.turnLeftDir
  | Turn.right => TrackBuilder.turnRightDir

/-- The canonical two-turn connector call pattern, as issued for stack
children after the first: start, quarter turn, `forward(d-2)`, opposite
quarter turn, `forward(h-2)`. -/
def connectorOps (x y : Int) (direction : Direction) (t : Turn) (d h : Int) : List Op :=
  [Op.start x y direction, turnOp t, Op.forward (d - 2),
   turnOp (oppositeTurn t), Op.forward (h - 2)]

/-- A concrete builder state with an open path, for witnesses. -/
def openBuilder : TrackBuilder :=
  { gridSize := 1
    currentX := 0
    currentY := 0
    currentDirection := Direction.east
    currentPath := some ⟨[]⟩
    paths := [] }

/-- C1: starting a path at any grid point with any heading and issuing
turn, `forward(d-2)`, opposite turn, `forward(h-2)` (for `d, h ≥ 2`, the
two-turn connector emitted for stack children after the first) succeeds
and displaces the cursor by exactly `h` grid units along the original
heading plus `d` grid units along the perpendicular heading selected by
the first turn; and each single quarter turn advances the cursor exactly
one unit in the old heading plus one unit in the new heading. -/
theorem twoTurn_connector_displacement :
    (∀ (b : TrackBuilder) (x y d h : Int) (direction : Direction) (t : Turn),
      b.currentPath = none → 2 ≤ d → 2 ≤ h →
      ∃ b2, runOps b (connectorOps x y direction t d h) = Except.ok b2 ∧
        b2.currentX = x + h * (TrackBuilder.getDirectionDelta direction).1
            + d * (TrackBuilder.getDirectionDelta (turnDir t direction)).1 ∧
        b2.currentY = y + h * (TrackBuilder.getDirectionDelta direction).2
            + d * (TrackBuilder.getDirectionDelta (turnDir t direction)).2) ∧
    (∀ (b : TrackBuilder) (t : Turn), b.currentPath.isSome = true →
      ∃ b2, stepOp b (turnOp t) = Except.ok b2 ∧
        b2.currentX = b.currentX + (TrackBuilder.getDirectionDelta b.currentDirection).1
            + (TrackBuilder.getDirectionDelta (turnDir t b.currentDirection)).1 ∧
        b2.currentY = b.currentY + (TrackBuilder.getDirectionDelta b.currentDirection).2
            + (TrackBuilder.getDirectionDelta (turnDir t b.currentDirection)).2) := by
  constructor
  · intro b x y d h direction t hb hd hh
    cases direction <;> cases t <;>
      · simp only [connectorOps, runOps, stepOp, turnOp, oppositeTurn, turnDir,
          TrackBuilder.start, TrackBuilder.forward, TrackBuilder.turnLeft,
          TrackBuilder.turnRight, TrackBuilder.addArcTransition,
          TrackBuilder.arcDefined, TrackBuilder.turnLeftDir,
          TrackBuilder.turnRightDir, TrackBuilder.getDirectionDelta, hb]
        refine ⟨_, rfl, ?_, ?_⟩ <;> simp <;> ring
  · intro b t hb
    cases hp : b.currentPath with
    | none => rw [hp] at hb; simp at hb
    | some p =>
        cases hd : b.currentDirection <;> cases t <;>
          · simp only [stepOp, turnOp, turnDir, TrackBuilder.turnLeft,
              TrackBuilder.turnRight, TrackBuilder.addArcTransition,
              TrackBuilder.arcDefined, TrackBuilder.turnLeftDir,
              TrackBuilder.turnRightDir, TrackBuilder.getDirectionDelta, hp, hd]
            refine ⟨_, rfl, ?_, ?_⟩ <;> simp

/-- C1 witness: the connector at a concrete input. -/
theorem twoTurn_connector_displacement_witness :
    (TrackBuilder.init 1).currentPath = none ∧ (2 : Int) ≤ 5 ∧ (2 : Int) ≤ 7 ∧
    ∃ b2, runOps (TrackBuilder.init 1) (connectorOps 0 0 Direction.east Turn.right 5 7) =
        Except.ok b2 ∧
      b2.currentX = 0 + 7 * (TrackBuilder.getDirectionDelta Direction.east).1
          + 5 * (TrackBuilder.getDirectionDelta (turnDir Turn.right Direction.east)).1 ∧
      b2.currentY = 0 + 7 * (TrackBuilder.getDirectionDelta Direction.east).2
          + 5 * (TrackBuilder.getDirectionDelta (turnDir Turn.right Direction.east)).2 :=
  ⟨rfl, by decide, by decide,
    twoTurn_connector_displacement.1 (TrackBuilder.init 1) 0 0 5 7 Direction.east Turn.right
      rfl (by decide) (by decide)⟩

/-- C8: each `TrackBuilder` operation throws exactly when invoked out of
sequence: `start` fails precisely when a path is already open, and
`forward`, `turnLeft`, `turnRight`, `finish` fail precisely when no path
is open; in particular `forward` on a freshly constructed builder always
throws. -/
theorem trackBuilder_sequencing_errors :
    ∀ (b : TrackBuilder) (x y n g : Int) (direction : Direction),
      exceptOk (b.start x y direction) = b.currentPath.isNone ∧
      exceptOk (b.forward n) = b.currentPath.isSome ∧
      exceptOk b.turnLeft = b.currentPath.isSome ∧
      exceptOk b.turnRight = b.currentPath.isSome ∧
      exceptOk b.finish = b.currentPath.isSome ∧
      exceptOk ((TrackBuilder.init g).forward n) = false := by
  intro b x y n g direction
  cases hb : b.currentPath <;> cases hd : b.currentDirection <;>
    simp [exceptOk, TrackBuilder.start, TrackBuilder.forward, TrackBuilder.turnLeft,
      TrackBuilder.turnRight, TrackBuilder.finish, TrackBuilder.addArcTransition,
      TrackBuilder.arcDefined, TrackBuilder.turnLeftDir, TrackBuilder.turnRightDir,
      TrackBuilder.init, hb, hd]

/-- C9: for every reachable heading, the heading pair produced by
`_turnLeft`/`_turnRight` is one of the 8 pairs in `ARC_TRANSITIONS`, so
turning with an open path never reaches the undefined-arc-transition
error branch. -/
theorem quarter_turn_arcs_always_defined :
    (∀ d : Direction, TrackBuilder.arcDefined d (TrackBuilder.turnLeftDir d) = true ∧
        TrackBuilder.arcDefined d (TrackBuilder.turnRightDir d) = true) ∧
    (∀ b : TrackBuilder, b.currentPath.isSome = true →
      exceptOk b.turnLeft = true ∧ exceptOk b.turnRight = true) := by
  constructor
  · intro d
    cases d <;> exact ⟨rfl, rfl⟩
  · intro b hb
    cases hp : b.currentPath with
    | none => rw [hp] at hb; simp at hb
    | some p =>
        cases hd : b.currentDirection <;>
          simp [exceptOk, TrackBuilder.turnLeft, TrackBuilder.turnRight,
            TrackBuilder.addArcTransition, TrackBuilder.arcDefined,
            TrackBuilder.turnLeftDir, TrackBuilder.turnRightDir, hp, hd]

/-- C9 witness: turning on a concrete builder with an open path. -/
theorem quarter_turn_arcs_always_defined_witness :
    openBuilder.currentPath.isSome = true ∧
    exceptOk openBuilder.turnLeft = true ∧
    exceptOk openBuilder.turnRight = true :=
  ⟨by decide,
    (quarter_turn_arcs_always_defined.2 openBuilder (by decide)).1,
    (quarter_turn_arcs_always_defined.2 openBuilder (by decide)).2⟩

/-! ## Claim theorems: bypass and loop rails -/

/-- C4: for a child with `baseline ≥ 1`, the bypass rail emitted by
`Expression.bypass(child).render` starts at the left entry point
`(0, baseline)` heading east, contains exactly four quarter turns, two
vertical runs of `baseline - 2` units and one horizontal run of
`width - 4` units, and its cursor ends exactly at the right exit point
`(width, baseline)` — the same two endpoints the two through-path stubs
attach to. -/
theorem bypass_rail_connects_entry_to_exit :
    ∀ (child : LayoutBox) (g : Int), 1 ≤ child.baseline →
      (Expression.bypassRailOps (Expression.bypass child).width
            (Expression.bypass child).baseline).head? =
          some (Op.start 0 (Expression.bypass child).baseline Direction.east) ∧
      (Expression.bypassRailOps (Expression.bypass child).width
          (Expression.bypass child).baseline).countP isTurn = 4 ∧
      forwardArgs (Expression.bypassRailOps (Expression.bypass child).width
          (Expression.bypass child).baseline) =
        [(Expression.bypass child).baseline - 2, (Expression.bypass child).width - 4,
          (Expression.bypass child).baseline - 2] ∧
      REvent.rail (Expression.bypassRailOps (Expression.bypass child).width
          (Expression.bypass child).baseline) ∈ Expression.bypassRender child ∧
      finalPosition (runOps (TrackBuilder.init g)
          (Expression.bypassRailOps (Expression.bypass child).width
            (Expression.bypass child).baseline)) =
        some ((Expression.bypass child).width, (Expression.bypass child).baseline) ∧
      REvent.rail [Op.start 0 (Expression.bypass child).baseline Direction.east,
          Op.forward 2, Op.finish] ∈ Expression.bypassRender child ∧
      REvent.rail [Op.start (Expression.bypass child).width
            (Expression.bypass child).baseline Direction.west,
          Op.forward 2, Op.finish] ∈ Expression.bypassRender child := by
  intro child g hbase
  refine ⟨rfl, rfl, rfl, ?_, ?_, ?_, ?_⟩
  · simp [Expression.bypassRender]
  · simp [Expression.bypassRailOps, runOps, stepOp, TrackBuilder.init,
      TrackBuilder.start, TrackBuilder.forward, TrackBuilder.turnLeft,
      TrackBuilder.turnRight, TrackBuilder.finish, TrackBuilder.addArcTransition,
      TrackBuilder.arcDefined, TrackBuilder.turnLeftDir, TrackBuilder.turnRightDir,
      TrackBuilder.getDirectionDelta, finalPosition]
    constructor <;> ring
  · simp [Expression.bypassRender]
  · simp [Expression.bypassRender]

/-- C4 witness: the bypass rail of a concrete child box. -/
theorem bypass_rail_connects_entry_to_exit_witness :
    1 ≤ (⟨6, 2, 1⟩ : LayoutBox).baseline ∧
    finalPosition (runOps (TrackBuilder.init 1)
        (Expression.bypassRailOps (Expression.bypass ⟨6, 2, 1⟩).width
          (Expression.bypass ⟨6, 2, 1⟩).baseline)) =
      some ((Expression.bypass ⟨6, 2, 1⟩).width, (Expression.bypass ⟨6, 2, 1⟩).baseline) :=
  ⟨by decide,
    (bypass_rail_connects_entry_to_exit ⟨6, 2, 1⟩ 1 (by decide)).2.2.2.2.1⟩

/-- C5 counterexample: for the concrete child box of width 6, height 2,
baseline 1, the loop rail's start point and final cursor position both
differ from the bypass rail's — the two rails do not connect the same two
endpoints, so the drawn shapes are not identical. -/
theorem loop_bypass_rails_differ_at_endpoints :
    (Expression.loopRailOps (Expression.loop ⟨6, 2, 1⟩).width
          (Expression.loop ⟨6, 2, 1⟩).baseline).head? ≠
        (Expression.bypassRailOps (Expression.bypass ⟨6, 2, 1⟩).width
          (Expression.bypass ⟨6, 2, 1⟩).baseline).head? ∧
      finalPosition (runOps (TrackBuilder.init 1)
          (Expression.loopRailOps (Expression.loop ⟨6, 2, 1⟩).width
            (Expression.loop ⟨6, 2, 1⟩).baseline)) ≠
        finalPosition (runOps (TrackBuilder.init 1)
          (Expression.bypassRailOps (Expression.bypass ⟨6, 2, 1⟩).width
            (Expression.bypass ⟨6, 2, 1⟩).baseline)) := by
  decide

/-- C5 (amended): `loop(child)` computes exactly the same width, height
and baseline as `bypass(child)`, and the loop rail draws the same three
straight segments (the two vertical legs and the top run) as the bypass
rail over the same rectangle above the child; but the loop rail's
endpoints sit 2 units inward: it starts at `(2, baseline)` heading west
and ends at `(width - 2, baseline)`, whereas the bypass rail connects
`(0, baseline)` to `(width, baseline)`. -/
theorem loop_same_layout_same_legs_inward_endpoints :
    ∀ (child : LayoutBox) (g : Int),
      Expression.loop child = Expression.bypass child ∧
      (Expression.loopRailOps (Expression.loop child).width
            (Expression.loop child).baseline).head? =
          some (Op.start 2 (Expression.loop child).baseline Direction.west) ∧
      finalPosition (runOps (TrackBuilder.init g)
          (Expression.loopRailOps (Expression.loop child).width
            (Expression.loop child).baseline)) =
        some ((Expression.loop child).width - 2, (Expression.loop child).baseline) ∧
      (finishedCommands (runOps (TrackBuilder.init g)
            (Expression.loopRailOps (Expression.loop child).width
              (Expression.loop child).baseline))).filter isLine =
        (finishedCommands (runOps (TrackBuilder.init g)
            (Expression.bypassRailOps (Expression.bypass child).width
              (Expression.bypass child).baseline))).filter isLine := by
  intro child g
  refine ⟨rfl, rfl, ?_, ?_⟩
  · simp [Expression.loopRailOps, runOps, stepOp, TrackBuilder.init,
      TrackBuilder.start, TrackBuilder.forward, TrackBuilder.turnLeft,
      TrackBuilder.turnRight, TrackBuilder.finish, TrackBuilder.addArcTransition,
      TrackBuilder.arcDefined, TrackBuilder.turnLeftDir, TrackBuilder.turnRightDir,
      TrackBuilder.getDirectionDelta, finalPosition]
    constructor <;> ring
  · simp [Expression.loopRailOps, Expression.bypassRailOps, Expression.loop,
      Expression.bypass, runOps, stepOp,
      TrackBuilder.init, TrackBuilder.start, TrackBuilder.forward,
      TrackBuilder.turnLeft, TrackBuilder.turnRight, TrackBuilder.finish,
      TrackBuilder.addArcTransition, TrackBuilder.arcDefined,
      TrackBuilder.turnLeftDir, TrackBuilder.turnRightDir,
      TrackBuilder.getDirectionDelta, finishedCommands, isLine]

/-! ## Claim theorems: layout formulas and invariants -/

/-- C2: every `LayoutBox` produced by the five combinators (with all
children themselves combinator-built) has even width. -/
theorem combinator_width_even : ∀ e : Expr, (layout e).width % 2 = 0 :=
  fun e => (layout_goodBox e).1

/-- C3: `stack(c1, ..., cn)` (n ≥ 1) has width
`roundUpToEven(max child width) + 4`, height
`(sum of child heights) + (n - 1) + 1`, and the first child's baseline;
in particular two children of height 2 give total height 6. -/
theorem stack_layout_formulas :
    ∀ (c : LayoutBox) (cs : List LayoutBox),
      (∃ M, M ∈ (c :: cs).map (fun b => b.width) ∧
        (∀ box ∈ c :: cs, box.width ≤ M) ∧
        (Expression.stack (c :: cs)).width = roundUpToEven M + 4) ∧
      (Expression.stack (c :: cs)).height =
        ((c :: cs).map (fun b => b.height)).sum + (((c :: cs).length : Int) - 1) + 1 ∧
      (Expression.stack (c :: cs)).baseline = c.baseline ∧
      (∀ c1 c2 : LayoutBox, c1.height = 2 → c2.height = 2 →
        (Expression.stack [c1, c2]).height = 6) := by
  intro c cs
  refine ⟨⟨mathMax (c.width :: cs.map (fun b => b.width)), ?_, ?_, ?_⟩, ?_, ?_, ?_⟩
  · have := mathMax_mem c.width (cs.map (fun b => b.width))
    simpa using this
  · intro box hb
    apply le_mathMax
    rcases List.mem_cons.mp hb with h1 | h1
    · rw [h1]
      exact List.mem_cons_self _ _
    · exact List.mem_cons_of_mem _ (List.mem_map.mpr ⟨box, h1, rfl⟩)
  · simp [Expression.stack]
  · simp [Expression.stack, foldl_add_height]
  · simp [Expression.stack]
  · intro c1 c2 h1 h2
    simp [Expression.stack]
    omega

/-- C3 witness: a concrete stack of two height-2 children. -/
theorem stack_layout_formulas_witness :
    (⟨6, 2, 1⟩ : LayoutBox).height = 2 ∧ (⟨4, 2, 1⟩ : LayoutBox).height = 2 ∧
    (Expression.stack [⟨6, 2, 1⟩, ⟨4, 2, 1⟩]).height = 6 :=
  ⟨rfl, rfl,
    (stack_layout_formulas ⟨6, 2, 1⟩ []).2.2.2 ⟨6, 2, 1⟩ ⟨4, 2, 1⟩ rfl rfl⟩

/-- C6: a text box with measured extent `w` has height 2, baseline 1, and
width the least even integer at least `w + 3`; in particular measured
width 4 gives total width 8. -/
theorem textBox_layout_formulas :
    ∀ w : Int,
      (Expression.textBox w).height = 2 ∧
      (Expression.textBox w).baseline = 1 ∧
      (Expression.textBox w).width % 2 = 0 ∧
      w + 3 ≤ (Expression.textBox w).width ∧
      (∀ m : Int, m % 2 = 0 → w + 3 ≤ m → (Expression.textBox w).width ≤ m) ∧
      (Expression.textBox 4).width = 8 := by
  intro w
  refine ⟨rfl, rfl, roundUpToEven_emod _, le_roundUpToEven _, ?_, by decide⟩
  intro m hm hle
  simp only [Expression.textBox, roundUpToEven]
  omega

/-- C6 witness: the least-even bound evaluated at measured width 4. -/
theorem textBox_layout_formulas_witness :
    (8 : Int) % 2 = 0 ∧ (4 : Int) + 3 ≤ 8 ∧ (Expression.textBox 4).width ≤ 8 :=
  ⟨by decide, by decide, (textBox_layout_formulas 4).2.2.2.2.1 8 (by decide) (by decide)⟩

/-- C10 (implicit invariant): every combinator-built node's baseline
satisfies `1 ≤ baseline ≤ height - 1`, and consequently every rail run
length the combinators pass to `forward` — including the
`verticalDistance - 2` runs of stack and the `baseline - 2` runs of
bypass and loop — is non-negative. -/
theorem combinator_baseline_strictly_inside :
    ∀ e : Expr,
      (1 ≤ (layout e).baseline ∧ (layout e).baseline ≤ (layout e).height - 1) ∧
      ∀ a ∈ railForwardArgs (renderEvents e), 0 ≤ a := by
  intro e
  refine ⟨⟨(layout_goodBox e).2.2.1, ?_⟩, renderEvents_runs_nonneg e⟩
  have := (layout_goodBox e).2.2.2
  omega

/-- C10 witness: a run length of the bypass around a text box. -/
theorem combinator_baseline_strictly_inside_witness :
    (2 : Int) ∈ railForwardArgs (renderEvents (Expr.bypass (Expr.textBox 4))) ∧ (0 : Int) ≤ 2 :=
  ⟨by simp [renderEvents, layout, Expression.textBox, Expression.bypass,
      Expression.bypassRender, Expression.bypassRailOps, railForwardArgs, forwardArgs,
      roundUpToEven],
    (combinator_baseline_strictly_inside (Expr.bypass (Expr.textBox 4))).2 2
      (by simp [renderEvents, layout, Expression.textBox, Expression.bypass,
        Expression.bypassRender, Expression.bypassRailOps, railForwardArgs, forwardArgs,
        roundUpToEven])⟩

/-! ## Claim theorems: sequence layout and baseline alignment -/

theorem placements_sequenceRenderGo_cons (baseline : Int) (c : LayoutBox)
    (cs : List LayoutBox) (x : Int) :
    placements (Expression.sequenceRenderGo baseline (c :: cs) x) =
      (c, x, baseline - c.baseline) ::
        placements (Expression.sequenceRenderGo baseline cs (x + c.width + 2)) := by
  rw [Expression.sequenceRenderGo, placements_append]
  by_cases hcs : cs.isEmpty <;> simp [hcs, placements]

theorem placements_sequenceRenderGo_get (baseline : Int) :
    ∀ (l : List LayoutBox) (x : Int) (i : Nat) (hi : i < l.length),
      (placements (Expression.sequenceRenderGo baseline l x))[i]? =
        some (l.get ⟨i, hi⟩,
          x + ((l.take i).map (fun b => b.width)).sum + 2 * (i : Int),
          baseline - (l.get ⟨i, hi⟩).baseline) := by
  intro l
  induction l with
  | nil =>
      intro x i hi
      simp at hi
  | cons c cs ih =>
      intro x i hi
      rw [placements_sequenceRenderGo_cons]
      cases i with
      | zero => simp
      | succ j =>
          have hj : j < cs.length := by simpa using hi
          rw [List.getElem?_cons_succ, ih (x + c.width + 2) j hj]
          simp only [List.get_cons_succ, List.take_succ_cons, List.map_cons,
            List.sum_cons, Option.some.injEq, Prod.mk.injEq]
          refine ⟨trivial, ?_, trivial⟩
          push_cast
          ring

theorem placements_sequenceRenderGo_mainline (baseline : Int) :
    ∀ (l : List LayoutBox) (x : Int),
      ∀ p ∈ placements (Expression.sequenceRenderGo baseline l x),
        p.2.2 + p.1.baseline = baseline := by
  intro l
  induction l with
  | nil =>
      intro x p hp
      simp [Expression.sequenceRenderGo, placements] at hp
  | cons c cs ih =>
      intro x p hp
      rw [placements_sequenceRenderGo_cons] at hp
      rcases List.mem_cons.mp hp with h1 | h1
      · rw [h1]
        simp
      · exact ih _ p h1

/-- C7: `sequence(c1, ..., cn)` (n ≥ 1) has width
`(sum of child widths) + 2 * (n - 1)`, height the maximal child height,
baseline the maximal child baseline, and its render places child `i` at
horizontal offset `(sum of earlier child widths) + 2 * i` and vertical
offset `baseline - ci.baseline`, so every child's main line lies on the
single horizontal line `y = baseline`; in particular two children of
width 6 and baseline 1 give total width 14 and baseline 1. -/
theorem sequence_layout_and_alignment :
    ∀ (c : LayoutBox) (cs : List LayoutBox),
      (Expression.sequence (c :: cs)).width =
          ((c :: cs).map (fun b => b.width)).sum + 2 * (((c :: cs).length : Int) - 1) ∧
      ((Expression.sequence (c :: cs)).height ∈ (c :: cs).map (fun b => b.height) ∧
        ∀ box ∈ c :: cs, box.height ≤ (Expression.sequence (c :: cs)).height) ∧
      ((Expression.sequence (c :: cs)).baseline ∈ (c :: cs).map (fun b => b.baseline) ∧
        ∀ box ∈ c :: cs, box.baseline ≤ (Expression.sequence (c :: cs)).baseline) ∧
      (∀ (i : Nat) (hi : i < (c :: cs).length),
        (placements (Expression.sequenceRender (c :: cs)))[i]? =
          some ((c :: cs).get ⟨i, hi⟩,
            (((c :: cs).take i).map (fun b => b.width)).sum + 2 * (i : Int),
            (Expression.sequence (c :: cs)).baseline - ((c :: cs).get ⟨i, hi⟩).baseline)) ∧
      (∀ p ∈ placements (Expression.sequenceRender (c :: cs)),
        p.2.2 + p.1.baseline = (Expression.sequence (c :: cs)).baseline) ∧
      (∀ c1 c2 : LayoutBox, c1.width = 6 → c2.width = 6 → c1.baseline = 1 → c2.baseline = 1 →
        (Expression.sequence [c1, c2]).width = 14 ∧
          (Expression.sequence [c1, c2]).baseline = 1) := by
  intro c cs
  refine ⟨?_, ⟨?_, ?_⟩, ⟨?_, ?_⟩, ?_, ?_, ?_⟩
  · simp [Expression.sequence, foldl_add_width]
    ring
  · have := mathMax_mem c.height (cs.map (fun b => b.height))
    simpa [Expression.sequence] using this
  · intro box hb
    have hgoal : box.height ≤ mathMax (c.height :: cs.map (fun b => b.height)) := by
      apply le_mathMax
      rcases List.mem_cons.mp hb with h1 | h1
      · rw [h1]
        exact List.mem_cons_self _ _
      · exact List.mem_cons_of_mem _ (List.mem_map.mpr ⟨box, h1, rfl⟩)
    simpa [Expression.sequence] using hgoal
  · have := mathMax_mem c.baseline (cs.map (fun b => b.baseline))
    simpa [Expression.sequence] using this
  · intro box hb
    have hgoal : box.baseline ≤ mathMax (c.baseline :: cs.map (fun b => b.baseline)) := by
      apply le_mathMax
      rcases List.mem_cons.mp hb with h1 | h1
      · rw [h1]
        exact List.mem_cons_self _ _
      · exact List.mem_cons_of_mem _ (List.mem_map.mpr ⟨box, h1, rfl⟩)
    simpa [Expression.sequence] using hgoal
  · intro i hi
    have := placements_sequenceRenderGo_get
      (Expression.sequence (c :: cs)).baseline (c :: cs) 0 i hi
    rw [Expression.sequenceRender]
    simpa using this
  · intro p hp
    rw [Expression.sequenceRender] at hp
    exact placements_sequenceRenderGo_mainline _ _ _ p hp
  · intro c1 c2 h1 h2 h3 h4
    constructor
    · simp [Expression.sequence]
      omega
    · simp [Expression.sequence, mathMax]
      omega

/-- C7 witness: a concrete sequence of two width-6, baseline-1 boxes. -/
theorem sequence_layout_and_alignment_witness :
    (Expression.sequence [⟨6, 2, 1⟩, ⟨6, 2, 1⟩]).width = 14 ∧
      (Expression.sequence [⟨6, 2, 1⟩, ⟨6, 2, 1⟩]).baseline = 1 :=
  (sequence_layout_and_alignment ⟨6, 2, 1⟩ []).2.2.2.2.2 ⟨6, 2, 1⟩ ⟨6, 2, 1⟩
    rfl rfl rfl rfl
